import Mathlib

/-!
Verification development for the `mdu` disk-usage program
(`src/mdu.c`, `src/t_queue.c`, `src/list.c`).

The file system, as observed by the program through `lstat`, `opendir`
and `readdir`, is modelled by the mutual inductive types `FSObj` /
`EntList` below.  The traversal functions `get_block_size`,
`get_size_of_dir` and `get_block_size_mult` are direct translations of
the C functions of the same names in `src/mdu.c`; the task-queue
operations `enqueue` / `dequeue` translate `src/t_queue.c` on top of
the doubly linked list of `src/list.c`; the worker-pool bookkeeping
(`run_task`, `kill_task_initializer`) and the multi-root driver
(`start_options_and_run`, `main`) are translated as explicit state
transformers on `TQState`.

Definitions come first, theorems afterwards.
-/

namespace Mdu

mutual
/-- A file-system object as the program observes it at one path:
`statF` is a path on which `lstat` fails; `nondir blocks reg` is a
non-directory with `st_blocks = blocks` and `S_ISREG = reg` (so `reg =
false` covers symbolic links, fifos, ...); `dir blocks readable es` is
a directory with `st_blocks = blocks`, whose `opendir` succeeds iff
`readable`, and whose `readdir` stream yields the entries `es` in
order.  Block counts are the non-negative values `lstat` reports. -/
inductive FSObj : Type where
  | statF : FSObj
  | nondir : Nat → Bool → FSObj
  | dir : Nat → Bool → EntList → FSObj

/-- An ordered list of directory entries: each entry is a name paired
with the object found at the joined child path. -/
inductive EntList : Type where
  | nil : EntList
  | cons : String → FSObj → EntList → EntList
end

/-- Block count reported by `lstat` for an object (`st_blocks`). -/
def FSObj.blocksOf : FSObj → Nat
  | .statF => 0
  | .nondir b _ => b
  | .dir b _ _ => b

/-- Whether `S_ISREG` holds for the object's `st_mode`. -/
def FSObj.isRegFile : FSObj → Bool
  | .nondir _ r => r
  | _ => false

/-- Translation of the copying loops of `make_path` in `src/mdu.c`
(`while (src[i] != 0) dst[i] = src[i]`): copying a NUL-terminated
string character by character. -/
def copy_str : List Char → List Char
  | [] => []
  | c :: cs => c :: copy_str cs

/-- Translation of `make_path` (`src/mdu.c` lines 475-492).  The C
code copies `absolute_path` into the buffer, then tests
`absolute_path[i - 1] != the separator` (with `i` the number of
characters written so far) to decide whether to write a separator,
then copies `name` and writes the terminating NUL.  Strings are
modelled as their character lists without the NUL terminator. -/
def make_path (name absolute_path : List Char) : List Char :=
  let base := copy_str absolute_path
  if absolute_path.getD (absolute_path.length - 1) (Char.ofNat 0) ≠ '/' then
    base ++ ['/'] ++ copy_str name
  else
    base ++ copy_str name

/-- String-level wrapper of `make_path`, used when the visitor builds
the child path from the parent path and an entry name. -/
def mk_child_path (name absolute_path : String) : String :=
  ⟨make_path name.data absolute_path.data⟩

/-- The diagnostic emitted by the visitor when a directory cannot be
opened (the format string at `src/mdu.c` lines 133 and 176); the
trailing newline that terminates the line is left implicit in the
line-list model of the error stream. -/
def err_msg (p : String) : String :=
  "mdu: cannot read directory '" ++ p ++ "': Permission denied"

/-- Result of one visitor call: the returned `blkcnt_t`, the value of
the shared permission flag afterwards, the diagnostic lines written to
the error stream, and the tasks enqueued on the task queue (as
path/object pairs, in enqueue order).  In single-threaded mode the
task list is always empty. -/
structure Res where
  blocks : Int
  perm : Bool
  errs : List String
  tasks : List (String × FSObj)

mutual
/-- Translation of `get_block_size` (`src/mdu.c` lines 122-145), the
single-threaded recursive variant.  `lstat` failure returns 0; a
non-directory contributes its own `st_blocks`; a directory whose
`opendir` fails prints the diagnostic, clears the permission flag and
contributes its own `st_blocks`; otherwise the entries are visited by
`get_size_of_dir` with `multithread = false`. -/
def get_block_size (absolute_path : String) (t : FSObj) (perm : Bool) : Res :=
  match t with
  | .statF => ⟨0, perm, [], []⟩
  | .nondir b _ => ⟨(b : Int), perm, [], []⟩
  | .dir b readable es =>
    if readable then
      get_size_of_dir b absolute_path es false perm
    else
      ⟨(b : Int), false, [err_msg absolute_path], []⟩

/-- Translation of `get_size_of_dir` (`src/mdu.c` lines 211-266), the
entry loop shared by both variants.  Per entry, in the C order of
tests: if the child's `lstat` fails, the parent's `st_blocks` are
contributed and the loop breaks; the name self-dot contributes the
entry's own `st_blocks`; a name other than the parent-dot-dot entry
contributes the entry's `st_blocks` when `S_ISREG`, and otherwise
either enqueues a task for the child (`multithread = true`) or
recurses via `get_block_size` (`multithread = false`); the
parent-dot-dot entry contributes nothing. -/
def get_size_of_dir (parent_blocks : Nat) (absolute_path : String)
    (es : EntList) (multithread : Bool) (perm : Bool) : Res :=
  match es with
  | .nil => ⟨0, perm, [], []⟩
  | .cons name obj rest =>
    match obj with
    | .statF => ⟨(parent_blocks : Int), perm, [], []⟩
    | _ =>
      if name = "." then
        let r := get_size_of_dir parent_blocks absolute_path rest multithread perm
        ⟨(obj.blocksOf : Int) + r.blocks, r.perm, r.errs, r.tasks⟩
      else if name ≠ ".." then
        if obj.isRegFile then
          let r := get_size_of_dir parent_blocks absolute_path rest multithread perm
          ⟨(obj.blocksOf : Int) + r.blocks, r.perm, r.errs, r.tasks⟩
        else
          if multithread then
            let r := get_size_of_dir parent_blocks absolute_path rest multithread perm
            ⟨r.blocks, r.perm, r.errs,
              (mk_child_path name absolute_path, obj) :: r.tasks⟩
          else
            let c := get_block_size (mk_child_path name absolute_path) obj perm
            let r := get_size_of_dir parent_blocks absolute_path rest multithread c.perm
            ⟨c.blocks + r.blocks, r.perm, c.errs ++ r.errs, c.tasks ++ r.tasks⟩
      else
        get_size_of_dir parent_blocks absolute_path rest multithread perm
end

/-- Translation of `get_block_size_mult` (`src/mdu.c` lines 162-187):
the body run by a worker for one task; identical to `get_block_size`
except that the entry loop runs with `multithread = true`, so
subdirectories become new tasks instead of inline recursion. -/
def get_block_size_mult (absolute_path : String) (t : FSObj) (perm : Bool) : Res :=
  match t with
  | .statF => ⟨0, perm, [], []⟩
  | .nondir b _ => ⟨(b : Int), perm, [], []⟩
  | .dir b readable es =>
    if readable then
      get_size_of_dir b absolute_path es true perm
    else
      ⟨(b : Int), false, [err_msg absolute_path], []⟩

mutual
/-- The total block count that the traversal of an object yields (the
value `get_block_size` returns, expressed by structural recursion on
the tree so that both variants can be compared against it). -/
def dBlocks : FSObj → Int
  | .statF => 0
  | .nondir b _ => (b : Int)
  | .dir b readable es =>
    if readable then dBlocksEnts b es else (b : Int)

/-- Entry-list companion of `dBlocks`, mirroring the contribution of
each case of the entry loop. -/
def dBlocksEnts (parent_blocks : Nat) : EntList → Int
  | .nil => 0
  | .cons name obj rest =>
    match obj with
    | .statF => (parent_blocks : Int)
    | _ =>
      if name = "." then (obj.blocksOf : Int) + dBlocksEnts parent_blocks rest
      else if name ≠ ".." then
        if obj.isRegFile then (obj.blocksOf : Int) + dBlocksEnts parent_blocks rest
        else dBlocks obj + dBlocksEnts parent_blocks rest
      else dBlocksEnts parent_blocks rest
end

mutual
/-- Whether the traversal of an object encounters no directory whose
`opendir` fails (so the permission flag survives it). -/
def permOk : FSObj → Bool
  | .statF => true
  | .nondir _ _ => true
  | .dir _ readable es => if readable then permOkEnts es else false

/-- Entry-list companion of `permOk`; entries after a child whose
`lstat` fails are never visited, hence never affect the flag. -/
def permOkEnts : EntList → Bool
  | .nil => true
  | .cons name obj rest =>
    match obj with
    | .statF => true
    | _ =>
      if name = "." then permOkEnts rest
      else if name ≠ ".." then
        if obj.isRegFile then permOkEnts rest
        else permOk obj && permOkEnts rest
      else permOkEnts rest
end

mutual
/-- Size measure on trees, used to bound the number of steps the
task-queue run can take: a spawned task always carries a strictly
smaller tree. -/
def weight : FSObj → Nat
  | .statF => 1
  | .nondir _ _ => 1
  | .dir _ _ es => 1 + weightEnts es

/-- Entry-list companion of `weight`. -/
def weightEnts : EntList → Nat
  | .nil => 0
  | .cons _ obj rest => weight obj + weightEnts rest
end

/-- Combined weight of a work list of tasks. -/
def listWeight (q : List (String × FSObj)) : Nat :=
  (q.map fun x => weight x.2).sum

/-- Combined deep total of a work list of tasks. -/
def listDBlocks (q : List (String × FSObj)) : Int :=
  (q.map fun x => dBlocks x.2).sum

/-- The shared state a worker sees while draining the queue: the
accumulated `block_size`, the `permission` flag and the error stream
of the `Task_queue`. -/
structure PoolSt where
  block_size : Int
  permission : Bool
  errs : List String

/-- The task-queue-driven computation of the worker pool, sequenced in
dequeue order: while the queue is non-empty, dequeue one task
(`dequeue` of `src/t_queue.c` removes the node before the list head
sentinel, i.e. the tail of the list), run `get_block_size_mult` on it,
add its return value onto the shared accumulator (`run_task`,
`src/mdu.c` lines 371-389) and append the tasks it spawned (`add_task`
enqueues at the tail).  The recursion is indexed by explicit fuel; by
`run_queue_spec_aux` below, any fuel of at least `listWeight q` makes
it run to completion, so `run_mult_thread` supplies exactly that. -/
def run_queue (fuel : Nat) (q : List (String × FSObj)) (s : PoolSt) : PoolSt :=
  match fuel, q with
  | _, [] => s
  | 0, _ :: _ => s
  | fuel + 1, x :: xs =>
    let task := (x :: xs).getLast (List.cons_ne_nil x xs)
    let rest := (x :: xs).dropLast
    let r := get_block_size_mult task.1 task.2 s.permission
    run_queue fuel (rest ++ r.tasks)
      ⟨s.block_size + r.blocks, r.perm, s.errs ++ r.errs⟩

/-- The two functions a `Task` of `src/t_queue.h` can point to via its
`task_pointer` member. -/
inductive TaskFn : Type where
  | size_mult_fn : TaskFn
  | shutdown_fn : TaskFn
deriving DecidableEq

/-- Translation of the `Task` record of `src/t_queue.h`: a function
pointer and an owned path (NULL for shutdown sentinels, hence an
`Option`). -/
structure Task where
  task_pointer : TaskFn
  path : Option String
deriving DecidableEq

/-- The task queue content, listed from `list_first` to the tail.  In
`src/t_queue.c`, `enqueue` inserts at `list_prev (list_first l)`:
since `list_first` is `head.next` and every node's predecessor chain
ends at the head sentinel, that position is the head sentinel itself,
and `list_insert` places the new node between the current tail
(`head.prev`) and the sentinel — so `enqueue` appends at the tail. -/
def enqueue (q : List Task) (t : Task) : List Task :=
  q ++ [t]

/-- Translation of `queue_is_empty` (`src/t_queue.c` lines 64-66). -/
def queue_is_empty (q : List Task) : Bool :=
  q.isEmpty

/-- Translation of `dequeue` (`src/t_queue.c` lines 50-62): on an
empty queue `copy_task` stays NULL and the queue is untouched;
otherwise the node at `list_prev (list_end l)` — the tail of the list,
i.e. the most recently enqueued task — is copied to fresh memory and
removed.  Returns the copy and the remaining queue. -/
def dequeue (q : List Task) : Option Task × List Task :=
  if queue_is_empty q then (none, q)
  else (q.getLast?, q.dropLast)

/-- Concrete task used by closed witnesses and counterexamples. -/
def task_a : Task :=
  ⟨TaskFn.size_mult_fn, some "a"⟩

/-- Second concrete task, distinct from `task_a`. -/
def task_b : Task :=
  ⟨TaskFn.size_mult_fn, some "b"⟩

/-- A task as the worker pool sees it: a work task carrying a path and
the tree at that path, or a shutdown sentinel (path NULL, pointing to
`shutdown_threads`). -/
inductive MTask : Type where
  | work : String → FSObj → MTask
  | sentinel : MTask

/-- The `Task_queue` record of `src/t_queue.h` together with the
output stream: the pending task list, the settings and the shared
counters and flags. -/
structure TQState where
  task_q : List MTask
  thread_amount : Nat
  block_size : Int
  t_running : Int
  permission : Bool
  shutdown : Bool
  errs : List String
  output : List (Int × String)

/-- Translation of `shutdown_threads` (`src/mdu.c` lines 279-285):
sets the queue's shutdown flag and returns -1. -/
def shutdown_threads (s : TQState) : Int × TQState :=
  (-1, { s with shutdown := true })

/-- The indirect call `task->task_pointer(task, t_queue)` at
`src/mdu.c` line 374: a work task runs `get_block_size_mult`, whose
side effects are the permission flag, the error stream and the tasks
it enqueues; a sentinel runs `shutdown_threads`. -/
def task_return (s : TQState) : MTask → Int × TQState
  | .work p t =>
    let r := get_block_size_mult p t s.permission
    (r.blocks,
      { s with permission := r.perm, errs := s.errs ++ r.errs,
               task_q := s.task_q ++ (r.tasks.map fun x => MTask.work x.1 x.2) })
  | .sentinel => shutdown_threads s

/-- Translation of `kill_task_initializer` (`src/mdu.c` lines
400-409): when the queue is empty, no worker is running and the
just-completed task returned more than -1 (i.e. was not a sentinel),
it creates `thread_amount` shutdown sentinels; the list returned is
what it enqueues. -/
def kill_task_initializer (thread_amount : Nat) (temp_block_size : Int)
    (queue_empty : Bool) (t_running : Int) : List MTask :=
  if queue_empty && (t_running == 0) && (decide (temp_block_size > -1)) then
    List.replicate thread_amount MTask.sentinel
  else
    []

/-- Translation of `run_task` (`src/mdu.c` lines 371-389): run the
task's function, add its return value onto the shared accumulator
unless it was a sentinel's -1, decrement the running-worker count,
then hand the observed queue emptiness and worker count to
`kill_task_initializer` and enqueue whatever it created. -/
def run_task (s : TQState) (task : MTask) : TQState :=
  let tr := task_return s task
  let s1 := tr.2
  let s2 := if tr.1 > -1 then { s1 with block_size := s1.block_size + tr.1 } else s1
  let s3 := { s2 with t_running := s2.t_running - 1 }
  { s3 with task_q := s3.task_q ++
      kill_task_initializer s3.thread_amount tr.1 s3.task_q.isEmpty s3.t_running }

/-- The drain loop at `src/mdu.c` lines 102-104: `while
(!queue_is_empty) kill_task (dequeue (...))`; each `dequeue` removes
the tail of the list. -/
def clear_queue : List MTask → List MTask
  | [] => []
  | x :: xs => clear_queue ((x :: xs).dropLast)
termination_by q => q.length
decreasing_by simp

/-- Translation of `run_mult_thread` (`src/mdu.c` lines 419-443): the
pool of `thread_amount` workers collectively drains the queue seeded
with the one start task for `start_path`, accumulating into the shared
state; the workers' interleaved processing is sequenced in dequeue
order by `run_queue`.  Residual sentinels that workers did not consume
before observing shutdown are drained by the caller, so the pending
list is handed back unchanged. -/
def run_mult_thread (s : TQState) (start_path : String) (tree : FSObj) : TQState :=
  let q0 := [(start_path, tree)]
  let r := run_queue (listWeight q0) q0 ⟨s.block_size, s.permission, s.errs⟩
  { s with block_size := r.block_size, permission := r.permission, errs := r.errs }

/-- One iteration of the target loop of `start_options_and_run`
(`src/mdu.c` lines 85-106): run the root either through the pool
(`thread_amount > 1`) or through the single-threaded recursion (which
assigns its result to `block_size`), print the summary line, then null
`block_size`, `t_running` and `shutdown` and drain the queue — the
permission flag is not touched by the resetting code. -/
def start_options_and_run_step (s : TQState) (root : String × FSObj) : TQState :=
  let s1 :=
    if s.thread_amount > 1 then
      run_mult_thread s root.1 root.2
    else
      let r := get_block_size root.1 root.2 s.permission
      { s with block_size := r.blocks, permission := r.perm, errs := s.errs ++ r.errs }
  let s2 := { s1 with output := s1.output ++ [(s1.block_size, root.1)] }
  { s2 with block_size := 0, t_running := 0, shutdown := false,
            task_q := clear_queue s2.task_q }

/-- Translation of `start_options_and_run` (`src/mdu.c` lines 82-107):
the loop over all root targets. -/
def start_options_and_run (s : TQState) (targets : List (String × FSObj)) : TQState :=
  targets.foldl start_options_and_run_step s

/-- Translation of `create_task_queue` (`src/t_queue.c` lines 15-27):
empty list, zeroed counters, permission true, shutdown false. -/
def create_task_queue (thread_amount : Nat) : TQState :=
  ⟨[], thread_amount, 0, 0, true, false, [], []⟩

/-- Translation of `main` (`src/mdu.c` lines 56-70): create the queue,
run every root target, then exit with success iff the permission flag
is still set.  Returns the exit status together with the error
stream. -/
def mdu_main (thread_amount : Nat) (targets : List (String × FSObj)) : Nat × List String :=
  let final := start_options_and_run (create_task_queue thread_amount) targets
  (if final.permission then 0 else 1, final.errs)

theorem weight_pos (t : FSObj) : 0 < weight t := by
  cases t <;> simp [weight]

theorem listWeight_append (a b : List (String × FSObj)) :
    listWeight (a ++ b) = listWeight a + listWeight b := by
  simp [listWeight]

theorem listDBlocks_append (a b : List (String × FSObj)) :
    listDBlocks (a ++ b) = listDBlocks a + listDBlocks b := by
  simp [listDBlocks]

mutual
/-- Characterization of the single-threaded variant: its result blocks
are `dBlocks`, the permission flag out is the flag in conjoined with
`permOk`, it never enqueues a task, and it emits no diagnostic iff no
directory-open failure is encountered. -/
theorem gbs_spec (t : FSObj) : ∀ (p : String) (perm : Bool),
    (get_block_size p t perm).blocks = dBlocks t ∧
    (get_block_size p t perm).perm = (perm && permOk t) ∧
    (get_block_size p t perm).tasks = [] ∧
    ((get_block_size p t perm).errs = [] ↔ permOk t = true) := by
  cases t with
  | statF => intro p perm; simp [get_block_size, dBlocks, permOk]
  | nondir b r => intro p perm; simp [get_block_size, dBlocks, permOk]
  | dir b readable es =>
    intro p perm
    by_cases h : readable = true
    · subst h
      simpa [get_block_size, dBlocks, permOk] using gsd_spec es b p perm
    · simp only [Bool.not_eq_true] at h
      subst h
      simp [get_block_size, dBlocks, permOk]

/-- Entry-list companion of `gbs_spec` for `multithread = false`. -/
theorem gsd_spec (es : EntList) : ∀ (pb : Nat) (p : String) (perm : Bool),
    (get_size_of_dir pb p es false perm).blocks = dBlocksEnts pb es ∧
    (get_size_of_dir pb p es false perm).perm = (perm && permOkEnts es) ∧
    (get_size_of_dir pb p es false perm).tasks = [] ∧
    ((get_size_of_dir pb p es false perm).errs = [] ↔ permOkEnts es = true) := by
  cases es with
  | nil => intro pb p perm; simp [get_size_of_dir, dBlocksEnts, permOkEnts]
  | cons name obj rest =>
    intro pb p perm
    cases obj with
    | statF => simp [get_size_of_dir, dBlocksEnts, permOkEnts]
    | nondir b r =>
      by_cases h : name = "."
      · subst h
        have ih := gsd_spec rest pb p perm
        simp [get_size_of_dir, dBlocksEnts, permOkEnts, ih.1, ih.2.1, ih.2.2.1, ih.2.2.2]
      · by_cases h2 : name = ".."
        · subst h2
          have ih := gsd_spec rest pb p perm
          simp [get_size_of_dir, dBlocksEnts, permOkEnts, ih.1, ih.2.1, ih.2.2.1, ih.2.2.2]
        · cases r with
          | true =>
            have ih := gsd_spec rest pb p perm
            simp [get_size_of_dir, dBlocksEnts, permOkEnts, h, h2, FSObj.isRegFile,
              ih.1, ih.2.1, ih.2.2.1, ih.2.2.2]
          | false =>
            obtain ⟨hc1, hc2, hc3, hc4⟩ :=
              gbs_spec (FSObj.nondir b false) (mk_child_path name p) perm
            obtain ⟨ih1, ih2, ih3, ih4⟩ := gsd_spec rest pb p
              ((get_block_size (mk_child_path name p) (FSObj.nondir b false) perm).perm)
            rw [hc2] at ih1 ih2 ih3 ih4
            refine ⟨?_, ?_, ?_, ?_⟩
            · simp [get_size_of_dir, h, h2, FSObj.isRegFile, hc1, hc2, ih1, dBlocksEnts]
            · simp [get_size_of_dir, h, h2, FSObj.isRegFile, hc2, ih2, permOkEnts,
                Bool.and_assoc]
            · simp [get_size_of_dir, h, h2, FSObj.isRegFile, hc2, hc3, ih3]
            · simp [get_size_of_dir, h, h2, FSObj.isRegFile, hc2, hc4, ih4, permOkEnts]
    | dir b readable sub =>
      by_cases h : name = "."
      · subst h
        have ih := gsd_spec rest pb p perm
        simp [get_size_of_dir, dBlocksEnts, permOkEnts, ih.1, ih.2.1, ih.2.2.1, ih.2.2.2]
      · by_cases h2 : name = ".."
        · subst h2
          have ih := gsd_spec rest pb p perm
          simp [get_size_of_dir, dBlocksEnts, permOkEnts, ih.1, ih.2.1, ih.2.2.1, ih.2.2.2]
        · obtain ⟨hc1, hc2, hc3, hc4⟩ :=
            gbs_spec (FSObj.dir b readable sub) (mk_child_path name p) perm
          obtain ⟨ih1, ih2, ih3, ih4⟩ := gsd_spec rest pb p
            ((get_block_size (mk_child_path name p) (FSObj.dir b readable sub) perm).perm)
          rw [hc2] at ih1 ih2 ih3 ih4
          refine ⟨?_, ?_, ?_, ?_⟩
          · simp [get_size_of_dir, h, h2, FSObj.isRegFile, hc1, hc2, ih1, dBlocksEnts]
          · simp [get_size_of_dir, h, h2, FSObj.isRegFile, hc2, ih2, permOkEnts,
              Bool.and_assoc]
          · simp [get_size_of_dir, h, h2, FSObj.isRegFile, hc2, hc3, ih3]
          · simp [get_size_of_dir, h, h2, FSObj.isRegFile, hc2, hc4, ih4, permOkEnts]
end

/-- Characterization of the entry loop in multi-threaded mode: the
directly contributed blocks plus the deep totals of the spawned tasks
equal the deep total of the entry list; the permission flag and the
error stream are untouched by the loop itself; the spawned tasks cover
exactly the permission outcome of the entry list; the contribution is
non-negative; and the spawned tasks weigh no more than the entries. -/
theorem gsdM_spec (es : EntList) : ∀ (pb : Nat) (p : String) (perm : Bool),
    (get_size_of_dir pb p es true perm).blocks +
        listDBlocks (get_size_of_dir pb p es true perm).tasks = dBlocksEnts pb es ∧
    (get_size_of_dir pb p es true perm).perm = perm ∧
    (get_size_of_dir pb p es true perm).errs = [] ∧
    ((get_size_of_dir pb p es true perm).tasks.all fun x => permOk x.2) = permOkEnts es ∧
    0 ≤ (get_size_of_dir pb p es true perm).blocks ∧
    listWeight (get_size_of_dir pb p es true perm).tasks ≤ weightEnts es := by
  cases es with
  | nil =>
    intro pb p perm
    simp [get_size_of_dir, dBlocksEnts, permOkEnts, listDBlocks, listWeight, weightEnts]
  | cons name obj rest =>
    intro pb p perm
    obtain ⟨ih1, ih2, ih3, ih4, ih5, ih6⟩ := gsdM_spec rest pb p perm
    have hw : 0 < weight obj := weight_pos obj
    cases obj with
    | statF =>
      simp [get_size_of_dir, dBlocksEnts, permOkEnts, listDBlocks, listWeight, weightEnts]
      try omega
    | nondir b r =>
      by_cases h : name = "."
      · subst h
        refine ⟨?_, ?_, ?_, ?_, ?_, ?_⟩ <;>
          simp [get_size_of_dir, dBlocksEnts, permOkEnts, weightEnts, ih2, ih3, ih4] <;>
          omega
      · by_cases h2 : name = ".."
        · subst h2
          refine ⟨?_, ?_, ?_, ?_, ?_, ?_⟩ <;>
            simp [get_size_of_dir, dBlocksEnts, permOkEnts, weightEnts, ih2, ih3, ih4] <;>
            omega
        · cases r with
          | true =>
            refine ⟨?_, ?_, ?_, ?_, ?_, ?_⟩ <;>
              simp [get_size_of_dir, dBlocksEnts, permOkEnts, weightEnts, h, h2,
                FSObj.isRegFile, ih2, ih3, ih4] <;>
              omega
          | false =>
            refine ⟨?_, ?_, ?_, ?_, ?_, ?_⟩ <;>
              simp [get_size_of_dir, dBlocksEnts, permOkEnts, weightEnts, h, h2,
                FSObj.isRegFile, listDBlocks, listWeight, ih2, ih3, ih4, dBlocks,
                permOk, weight] <;>
              simp [listDBlocks, listWeight] at ih1 ih6 <;> omega
    | dir b readable sub =>
      by_cases h : name = "."
      · subst h
        refine ⟨?_, ?_, ?_, ?_, ?_, ?_⟩ <;>
          simp [get_size_of_dir, dBlocksEnts, permOkEnts, weightEnts, ih2, ih3, ih4] <;>
          omega
      · by_cases h2 : name = ".."
        · subst h2
          refine ⟨?_, ?_, ?_, ?_, ?_, ?_⟩ <;>
            simp [get_size_of_dir, dBlocksEnts, permOkEnts, weightEnts, ih2, ih3, ih4] <;>
            omega
        · refine ⟨?_, ?_, ?_, ?_, ?_, ?_⟩ <;>
            simp [get_size_of_dir, dBlocksEnts, permOkEnts, weightEnts, h, h2,
              FSObj.isRegFile, listDBlocks, listWeight, ih2, ih3, ih4] <;>
            simp [listDBlocks, listWeight] at ih1 ih6 <;> omega

/-- Characterization of one worker body: the blocks it returns plus
the deep totals of the tasks it enqueues equal the deep total of its
tree; together with its spawned tasks it accounts for exactly the
permission outcome of the tree; its return value is non-negative; and
its spawned tasks weigh strictly less than its tree. -/
theorem gbsm_spec (t : FSObj) (p : String) (perm : Bool) :
    (get_block_size_mult p t perm).blocks +
        listDBlocks (get_block_size_mult p t perm).tasks = dBlocks t ∧
    ((get_block_size_mult p t perm).perm &&
        (get_block_size_mult p t perm).tasks.all fun x => permOk x.2) =
      (perm && permOk t) ∧
    ((get_block_size_mult p t perm).errs = [] ∧
        ((get_block_size_mult p t perm).tasks.all fun x => permOk x.2) = true ↔
      permOk t = true) ∧
    0 ≤ (get_block_size_mult p t perm).blocks ∧
    listWeight (get_block_size_mult p t perm).tasks < weight t := by
  cases t with
  | statF =>
    simp [get_block_size_mult, dBlocks, permOk, listDBlocks, listWeight, weight]
  | nondir b r =>
    simp [get_block_size_mult, dBlocks, permOk, listDBlocks, listWeight, weight]
  | dir b readable es =>
    by_cases h : readable = true
    · subst h
      obtain ⟨m1, m2, m3, m4, m5, m6⟩ := gsdM_spec es b p perm
      refine ⟨?_, ?_, ?_, ?_, ?_⟩ <;>
        simp [get_block_size_mult, dBlocks, permOk, weight, m1, m2, m3, m4, m5] <;>
        omega
    · simp only [Bool.not_eq_true] at h
      subst h
      simp [get_block_size_mult, dBlocks, permOk, listDBlocks, listWeight, weight]

/-- Invariant of the pool run: given sufficient fuel, processing a
work list adds exactly the deep totals of its tasks to the
accumulator, conjoins the permission flag with the permission outcome
of every task, and ends with an empty error stream iff it started
empty and every task is permission-clean. -/
theorem run_queue_spec_aux (n : Nat) : ∀ (q : List (String × FSObj)) (s : PoolSt),
    listWeight q ≤ n →
    (run_queue n q s).block_size = s.block_size + listDBlocks q ∧
    (run_queue n q s).permission = (s.permission && (q.all fun x => permOk x.2)) ∧
    ((run_queue n q s).errs = [] ↔ s.errs = [] ∧ (q.all fun x => permOk x.2) = true) := by
  induction n with
  | zero =>
    intro q s hn
    cases q with
    | nil => simp [run_queue, listDBlocks]
    | cons x xs =>
      exfalso
      have := weight_pos x.2
      simp [listWeight] at hn
      omega
  | succ n ihn =>
    intro q s hn
    cases q with
    | nil => simp [run_queue, listDBlocks]
    | cons x xs =>
    obtain ⟨g1, g2, g3, g4, g5⟩ :=
      gbsm_spec ((x :: xs).getLast (List.cons_ne_nil x xs)).2
        ((x :: xs).getLast (List.cons_ne_nil x xs)).1 s.permission
    have hq : (x :: xs).dropLast ++ [(x :: xs).getLast (List.cons_ne_nil x xs)] = x :: xs :=
      List.dropLast_append_getLast (List.cons_ne_nil x xs)
    have hwq : listWeight (x :: xs) = listWeight (x :: xs).dropLast +
        weight ((x :: xs).getLast (List.cons_ne_nil x xs)).2 := by
      conv_lhs => rw [← hq]
      simp [listWeight]
    obtain ⟨ih1, ih2, ih3⟩ := ihn
      ((x :: xs).dropLast ++
        (get_block_size_mult ((x :: xs).getLast (List.cons_ne_nil x xs)).1
          ((x :: xs).getLast (List.cons_ne_nil x xs)).2 s.permission).tasks)
      ⟨s.block_size + (get_block_size_mult ((x :: xs).getLast (List.cons_ne_nil x xs)).1
          ((x :: xs).getLast (List.cons_ne_nil x xs)).2 s.permission).blocks,
        (get_block_size_mult ((x :: xs).getLast (List.cons_ne_nil x xs)).1
          ((x :: xs).getLast (List.cons_ne_nil x xs)).2 s.permission).perm,
        s.errs ++ (get_block_size_mult ((x :: xs).getLast (List.cons_ne_nil x xs)).1
          ((x :: xs).getLast (List.cons_ne_nil x xs)).2 s.permission).errs⟩
      (by rw [listWeight_append]; omega)
    have hrun : run_queue (n + 1) (x :: xs) s =
        run_queue n ((x :: xs).dropLast ++
            (get_block_size_mult ((x :: xs).getLast (List.cons_ne_nil x xs)).1
              ((x :: xs).getLast (List.cons_ne_nil x xs)).2 s.permission).tasks)
          ⟨s.block_size + (get_block_size_mult ((x :: xs).getLast (List.cons_ne_nil x xs)).1
              ((x :: xs).getLast (List.cons_ne_nil x xs)).2 s.permission).blocks,
            (get_block_size_mult ((x :: xs).getLast (List.cons_ne_nil x xs)).1
              ((x :: xs).getLast (List.cons_ne_nil x xs)).2 s.permission).perm,
            s.errs ++ (get_block_size_mult ((x :: xs).getLast (List.cons_ne_nil x xs)).1
              ((x :: xs).getLast (List.cons_ne_nil x xs)).2 s.permission).errs⟩ := by
      conv_lhs => rw [run_queue]
    have hall : ((x :: xs).all fun y => permOk y.2) =
        (((x :: xs).dropLast.all fun y => permOk y.2) &&
          permOk ((x :: xs).getLast (List.cons_ne_nil x xs)).2) := by
      conv_lhs => rw [← hq]
      simp [List.all_append]
    have hld : listDBlocks (x :: xs) =
        listDBlocks (x :: xs).dropLast +
          dBlocks ((x :: xs).getLast (List.cons_ne_nil x xs)).2 := by
      conv_lhs => rw [← hq]
      simp [listDBlocks]
    refine ⟨?_, ?_, ?_⟩
    · rw [hrun, ih1, hld]
      simp only [listDBlocks_append]
      omega
    · rw [hrun, ih2, hall]
      simp only [List.all_append]
      rw [Bool.and_left_comm, g2, Bool.and_left_comm]
    · rw [hrun, ih3, hall]
      simp only [List.all_append, List.append_eq_nil, Bool.and_eq_true]
      constructor
      · rintro ⟨⟨e1, e2⟩, hr, ha⟩
        exact ⟨e1, hr, g3.mp ⟨e2, ha⟩⟩
      · rintro ⟨e1, hr, hk⟩
        obtain ⟨e2, ha⟩ := g3.mpr hk
        exact ⟨⟨e1, e2⟩, hr, ha⟩

/-- Invariant of the pool run at the fuel `run_mult_thread` uses. -/
theorem run_queue_spec (q : List (String × FSObj)) (s : PoolSt) :
    (run_queue (listWeight q) q s).block_size = s.block_size + listDBlocks q ∧
    (run_queue (listWeight q) q s).permission =
      (s.permission && (q.all fun x => permOk x.2)) ∧
    ((run_queue (listWeight q) q s).errs = [] ↔
      s.errs = [] ∧ (q.all fun x => permOk x.2) = true) :=
  run_queue_spec_aux (listWeight q) q s le_rfl

theorem copy_str_id : ∀ l : List Char, copy_str l = l := by
  intro l
  induction l with
  | nil => rfl
  | cons c cs ih => simp [copy_str, ih]

theorem clear_queue_nil_aux (n : Nat) : ∀ q : List MTask, q.length ≤ n →
    clear_queue q = [] := by
  induction n with
  | zero =>
    intro q hq
    cases q with
    | nil => simp [clear_queue]
    | cons x xs => simp at hq
  | succ n ihn =>
    intro q hq
    cases q with
    | nil => simp [clear_queue]
    | cons x xs =>
      rw [clear_queue]
      exact ihn _ (by simp at hq ⊢; omega)

theorem clear_queue_nil (q : List MTask) : clear_queue q = [] :=
  clear_queue_nil_aux q.length q le_rfl

/-- Permission and error-stream effect of one iteration of the target
loop, for either pool size. -/
theorem sor_step_perm_errs (s : TQState) (root : String × FSObj) :
    (start_options_and_run_step s root).permission = (s.permission && permOk root.2) ∧
    ((start_options_and_run_step s root).errs = [] ↔
      s.errs = [] ∧ permOk root.2 = true) := by
  by_cases h : s.thread_amount > 1
  · obtain ⟨q1, q2, q3⟩ := run_queue_spec [(root.1, root.2)] ⟨s.block_size, s.permission, s.errs⟩
    constructor
    · simp [start_options_and_run_step, run_mult_thread, h, q2]
    · simp only [start_options_and_run_step, run_mult_thread, h]
      simpa using q3
  · obtain ⟨b1, b2, b3, b4⟩ := gbs_spec root.2 root.1 s.permission
    constructor
    · simp [start_options_and_run_step, h, b2]
    · simp [start_options_and_run_step, h, b4]

/-- The invariant tying the permission flag to error-stream emptiness,
preserved over the whole target loop. -/
theorem sor_inv : ∀ (targets : List (String × FSObj)) (s : TQState),
    (s.permission = true ↔ s.errs = []) →
    ((start_options_and_run s targets).permission = true ↔
      (start_options_and_run s targets).errs = []) := by
  intro targets
  induction targets with
  | nil => intro s h; simpa [start_options_and_run] using h
  | cons r rs ih =>
    intro s h
    have hfold : start_options_and_run s (r :: rs) =
        start_options_and_run (start_options_and_run_step s r) rs := by
      simp [start_options_and_run]
    rw [hfold]
    apply ih
    obtain ⟨hp, he⟩ := sor_step_perm_errs s r
    rw [hp, he]
    simp [Bool.and_eq_true, h]

/-- Claim C1: for every input tree and every thread count N ≥ 1, the
single-threaded recursive variant (`get_block_size`) and the pooled
variant (`get_block_size_mult` driven by the task queue, sequenced in
dequeue order by `run_queue`, which is independent of N) produce the
same printed block total and the same final permission-flag value for
a root target, starting from the zeroed accumulator the driver
guarantees between roots. -/
theorem mdu_C1 (N : Nat) (s : TQState) (p : String) (t : FSObj)
    (hN : 1 ≤ N) (hb : s.block_size = 0) :
    (start_options_and_run_step { s with thread_amount := N } (p, t)).output =
      (start_options_and_run_step { s with thread_amount := 1 } (p, t)).output ∧
    (start_options_and_run_step { s with thread_amount := N } (p, t)).permission =
      (start_options_and_run_step { s with thread_amount := 1 } (p, t)).permission := by
  rcases Nat.lt_or_ge 1 N with hgt | hle
  · obtain ⟨q1, q2, q3⟩ := run_queue_spec [(p, t)] ⟨s.block_size, s.permission, s.errs⟩
    obtain ⟨b1, b2, b3, b4⟩ := gbs_spec t p s.permission
    rw [hb] at q1 q2 q3
    constructor
    · simp [start_options_and_run_step, run_mult_thread, hgt, q1, b1, hb, listDBlocks]
    · simp [start_options_and_run_step, run_mult_thread, hgt, q2, b2, hb]
  · have hN1 : N = 1 := le_antisymm hle hN
    subst hN1
    exact ⟨rfl, rfl⟩

/-- Closed instance of `mdu_C1` at a concrete pool size and tree. -/
theorem mdu_C1_witness :
    (start_options_and_run_step { create_task_queue 4 with thread_amount := 4 }
        ("r", FSObj.nondir 8 true)).output =
      (start_options_and_run_step { create_task_queue 4 with thread_amount := 1 }
        ("r", FSObj.nondir 8 true)).output ∧
    (start_options_and_run_step { create_task_queue 4 with thread_amount := 4 }
        ("r", FSObj.nondir 8 true)).permission =
      (start_options_and_run_step { create_task_queue 4 with thread_amount := 1 }
        ("r", FSObj.nondir 8 true)).permission :=
  mdu_C1 4 (create_task_queue 4) "r" (FSObj.nondir 8 true) (by decide) rfl

/-- Claim C2, counterexample to the claim as stated: a child entry
that is not a directory and not a regular file (here a symbolic link,
modelled as `nondir _ false`) does get a Task created for it in
multi-threaded mode, because the code branches on `S_ISREG`, not on
`S_ISDIR`. -/
theorem mdu_C2_counterexample :
    (get_size_of_dir 8 "p" (EntList.cons "s" (FSObj.nondir 8 false) EntList.nil)
        true true).tasks =
      [(mk_child_path "s" "p", FSObj.nondir 8 false)] := by
  simp [get_size_of_dir, FSObj.isRegFile]

/-- Claim C2, amended: for a visited entry with name other than the
self and parent entries whose `lstat` succeeds, a regular-file child
contributes its own block count with no task created; any other child
(directory or non-regular non-directory) gets a Task enqueued for it
in multi-threaded mode, and is recursed on inline via
`get_block_size` in single-threaded mode. -/
theorem mdu_C2 (pb : Nat) (p name : String) (obj : FSObj) (rest : EntList) (perm : Bool)
    (hdot : name ≠ ".") (hdd : name ≠ "..") (hstat : obj ≠ FSObj.statF) :
    (obj.isRegFile = true →
      get_size_of_dir pb p (EntList.cons name obj rest) true perm =
        ⟨(obj.blocksOf : Int) + (get_size_of_dir pb p rest true perm).blocks,
          (get_size_of_dir pb p rest true perm).perm,
          (get_size_of_dir pb p rest true perm).errs,
          (get_size_of_dir pb p rest true perm).tasks⟩) ∧
    (obj.isRegFile = false →
      (get_size_of_dir pb p (EntList.cons name obj rest) true perm).tasks =
        (mk_child_path name p, obj) :: (get_size_of_dir pb p rest true perm).tasks ∧
      (get_size_of_dir pb p (EntList.cons name obj rest) false perm).blocks =
        (get_block_size (mk_child_path name p) obj perm).blocks +
          (get_size_of_dir pb p rest false
            (get_block_size (mk_child_path name p) obj perm).perm).blocks) := by
  cases obj with
  | statF => exact absurd rfl hstat
  | nondir b r =>
    constructor
    · intro hreg
      simp only [FSObj.isRegFile] at hreg
      subst hreg
      simp [get_size_of_dir, hdot, hdd, FSObj.isRegFile]
    · intro hreg
      simp only [FSObj.isRegFile] at hreg
      subst hreg
      constructor <;> simp [get_size_of_dir, hdot, hdd, FSObj.isRegFile]
  | dir b readable sub =>
    constructor
    · intro hreg
      simp [FSObj.isRegFile] at hreg
    · intro hreg
      constructor <;> simp [get_size_of_dir, hdot, hdd, FSObj.isRegFile]

/-- Closed instance of `mdu_C2` for a non-regular non-directory
child. -/
theorem mdu_C2_witness :
    (get_size_of_dir 7 "d" (EntList.cons "s" (FSObj.nondir 5 false) EntList.nil)
        true true).tasks =
      (mk_child_path "s" "d", FSObj.nondir 5 false) ::
        (get_size_of_dir 7 "d" EntList.nil true true).tasks :=
  ((mdu_C2 7 "d" "s" (FSObj.nondir 5 false) EntList.nil true
      (by decide) (by decide) (by simp)).2 rfl).1

/-- Claim C3, counterexample to the claim as stated: after enqueueing
`task_a` and then `task_b` into the empty queue (so `task_a` is the
least recently enqueued task present), `dequeue` returns `task_b`, not
`task_a` — the queue is not FIFO. -/
theorem mdu_C3_counterexample :
    (dequeue (enqueue (enqueue [] task_a) task_b)).1 = some task_b ∧
      task_b ≠ task_a := by
  constructor
  · simp [dequeue, enqueue, queue_is_empty]
  · decide

/-- Claim C3, amended: the task queue is LIFO — `enqueue` appends at
the tail of the list and `dequeue` removes the tail, so each dequeue
returns the most recently enqueued task still present. -/
theorem mdu_C3 (q : List Task) (t : Task) :
    dequeue (enqueue q t) = (some t, q) := by
  simp [dequeue, enqueue, queue_is_empty]

/-- Claim C4: for a task path that is a directory whose open fails,
both variants emit exactly the one diagnostic line naming the path,
force the permission flag to false, contribute the directory's own
block count, and return without visiting any entries (the result does
not depend on the entry list). -/
theorem mdu_C4 (p : String) (b : Nat) (es : EntList) (perm : Bool) :
    get_block_size p (FSObj.dir b false es) perm =
      ⟨(b : Int), false, [err_msg p], []⟩ ∧
    get_block_size_mult p (FSObj.dir b false es) perm =
      ⟨(b : Int), false, [err_msg p], []⟩ := by
  constructor <;> rfl

/-- Claim C5: when the non-dereferencing status call for a child entry
fails, the entry loop contributes the parent's own block count, stops
iterating (the result does not depend on the remaining entries), emits
nothing and enqueues nothing — in both modes. -/
theorem mdu_C5 (pb : Nat) (p name : String) (rest : EntList) (mt perm : Bool) :
    get_size_of_dir pb p (EntList.cons name FSObj.statF rest) mt perm =
      ⟨(pb : Int), perm, [], []⟩ := by
  rfl

/-- Claim C6: shutdown sentinels are created only when the observed
queue is empty, the running-worker count is zero and the completed
task returned more than -1; a work task always returns more than -1
and a sentinel returns exactly -1, so the last conjunct says the
completed task was not a sentinel; when the predicate holds, exactly
`thread_amount` sentinels are enqueued; and running a sentinel never
changes the accumulated block total. -/
theorem mdu_C6 :
    (∀ (N : Nat) (temp t_run : Int) (qe : Bool),
        kill_task_initializer N temp qe t_run ≠ [] →
          qe = true ∧ t_run = 0 ∧ -1 < temp) ∧
    (∀ (N : Nat) (temp t_run : Int) (qe : Bool),
        qe = true → t_run = 0 → -1 < temp →
          kill_task_initializer N temp qe t_run = List.replicate N MTask.sentinel) ∧
    (∀ (s : TQState) (p : String) (t : FSObj),
        -1 < (task_return s (MTask.work p t)).1) ∧
    (∀ s : TQState, (task_return s MTask.sentinel).1 = -1) ∧
    (∀ s : TQState, (run_task s MTask.sentinel).block_size = s.block_size) := by
  refine ⟨?_, ?_, ?_, ?_, ?_⟩
  · intro N temp t_run qe h
    simp only [kill_task_initializer] at h
    split at h
    · rename_i hcond
      simp only [Bool.and_eq_true, beq_iff_eq, decide_eq_true_eq] at hcond
      exact ⟨hcond.1.1, hcond.1.2, hcond.2⟩
    · exact absurd rfl h
  · intro N temp t_run qe h1 h2 h3
    subst h1
    subst h2
    simp [kill_task_initializer, h3]
  · intro s p t
    have := (gbsm_spec t p s.permission).2.2.2.1
    simp only [task_return]
    omega
  · intro s
    rfl
  · intro s
    simp [run_task, task_return, shutdown_threads]

/-- Closed instance of `mdu_C6`: at a quiescent observation after a
work task, a pool of three workers gets exactly three sentinels. -/
theorem mdu_C6_witness :
    kill_task_initializer 3 0 true 0 = List.replicate 3 MTask.sentinel :=
  mdu_C6.2.1 3 0 0 true rfl rfl (by decide)

/-- Claim C7: one iteration of the target loop ends with the
accumulated blocks, the running-worker count and the shutdown flag
reset to zero/false and the queue drained empty, while the permission
flag is exactly the incoming flag conjoined with the outcome of the
root just processed — the resetting code does not touch it. -/
theorem mdu_C7 (s : TQState) (root : String × FSObj) :
    (start_options_and_run_step s root).block_size = 0 ∧
    (start_options_and_run_step s root).t_running = 0 ∧
    (start_options_and_run_step s root).shutdown = false ∧
    (start_options_and_run_step s root).task_q = [] ∧
    (start_options_and_run_step s root).permission = (s.permission && permOk root.2) := by
  have hp := (sor_step_perm_errs s root).1
  by_cases h : s.thread_amount > 1
  · refine ⟨?_, ?_, ?_, ?_, hp⟩ <;>
      simp [start_options_and_run_step, run_mult_thread, h, clear_queue_nil]
  · refine ⟨?_, ?_, ?_, ?_, hp⟩ <;>
      simp [start_options_and_run_step, h, clear_queue_nil]

/-- Claim C8: the exit status of a whole invocation is zero iff the
error stream is empty, i.e. iff no directory-open permission error was
diagnosed for any root target. -/
theorem mdu_C8 (N : Nat) (targets : List (String × FSObj)) :
    (mdu_main N targets).1 = 0 ↔ (mdu_main N targets).2 = [] := by
  have hinv := sor_inv targets (create_task_queue N) (by simp [create_task_queue])
  simp only [mdu_main]
  by_cases hp : (start_options_and_run (create_task_queue N) targets).permission = true
  · simp [hp, hinv.mp hp]
  · have he : ¬((start_options_and_run (create_task_queue N) targets).errs = []) :=
      fun he => hp (hinv.mpr he)
    simp [hp, he]

/-- Claim C9: for a non-empty parent path and an entry name whose
join fits the 4096-byte buffer, `make_path` produces the concatenation
of the parent, a separator inserted iff the parent does not already
end in one, and the name (the terminating NUL being implicit in the
list model). -/
theorem mdu_C9 (p n : List Char) (hne : p ≠ [])
    (hfit : p.length + n.length + 2 ≤ 4096) :
    make_path n p = p ++ (if p.getLast hne = '/' then [] else ['/']) ++ n := by
  have hlen : p.length - 1 < p.length := by
    have := List.length_pos.mpr hne
    omega
  have hd : p[p.length - 1]?.getD (Char.ofNat 0) = p.getLast hne := by
    rw [List.getElem?_eq_getElem hlen, Option.getD_some, List.getLast_eq_getElem]
  by_cases hch : p.getLast hne = '/'
  · simp [make_path, copy_str_id, hd, hch]
  · simp [make_path, copy_str_id, hd, hch]

/-- Closed instance of `mdu_C9`. -/
theorem mdu_C9_witness :
    make_path ['b'] ['a'] =
      ['a'] ++ (if ['a'].getLast (by decide) = '/' then [] else ['/']) ++ ['b'] :=
  mdu_C9 ['a'] ['b'] (by decide) (by decide)

/-- Claim C10: `dequeue` is non-blocking at its own interface — on the
empty queue it returns NULL and leaves the queue unchanged; on a
non-empty queue it removes exactly one task (the tail node) and
returns a copy whose fields equal those of the removed task. -/
theorem mdu_C10 (q : List Task) :
    (q = [] → dequeue q = (none, q)) ∧
    (q ≠ [] → dequeue q = (q.getLast?, q.dropLast) ∧
      ∃ t, q.getLast? = some t ∧ q = q.dropLast ++ [t]) := by
  constructor
  · intro h
    subst h
    rfl
  · intro h
    refine ⟨by simp [dequeue, queue_is_empty, h], q.getLast h,
      List.getLast?_eq_getLast q h, (List.dropLast_append_getLast h).symm⟩

/-- Closed instance of `mdu_C10` on the empty and a singleton
queue. -/
theorem mdu_C10_witness :
    dequeue ([] : List Task) = (none, []) ∧
    (dequeue [task_a] = (([task_a]).getLast?, ([task_a]).dropLast) ∧
      ∃ t, ([task_a]).getLast? = some t ∧ [task_a] = ([task_a]).dropLast ++ [t]) :=
  ⟨(mdu_C10 []).1 rfl, (mdu_C10 [task_a]).2 (by simp)⟩

end Mdu
